import Mathlib

/-!
Verification development for the browser-extension core: the retrying
request client and rate limiter (`src/unnamed/part_000`, the api-utils
module), the API manager (`src/background/api-manager.js`) and the feature
lifecycle manager (`src/background/feature-manager.js`).

The JavaScript source is shallowly embedded: objects become structures,
`Map`s and plain-object tables become association lists keyed by `String`,
JavaScript numbers used as integers become `Int` (timestamps, HTTP status
codes) or `Nat` (counters that the source never decrements below zero),
thrown errors become explicit error values, and user-supplied callbacks
(feature activation hooks, permission prompts) become oracle data carried
by the definitions' arguments.  Async control flow is single-threaded
cooperative scheduling, as in a JS event loop; where a claim depends on a
suspension point the embedding makes that point explicit.
-/

namespace Spec2Proof

/-- Association-list lookup keyed by strings, modelling `Map.get` /
property access on plain-object tables. -/
def lookupKey {α : Type} : List (String × α) → String → Option α
  | [], _ => none
  | (k, v) :: t, key => if k = key then some v else lookupKey t key

/-- Association-list membership, modelling `Map.has` / `in`. -/
def hasKey {α : Type} (l : List (String × α)) (key : String) : Bool :=
  (lookupKey l key).isSome

/-- Association-list update, modelling `Map.set` / property assignment:
replaces the binding in place if present, otherwise appends (preserving
JS insertion-order iteration). -/
def setKey {α : Type} : List (String × α) → String → α → List (String × α)
  | [], key, v => [(key, v)]
  | (k, w) :: t, key, v =>
    if k = key then (k, v) :: t else (k, w) :: setKey t key v

/-- Association-list removal, modelling `Map.delete` / `delete obj[k]`. -/
def eraseKey {α : Type} (l : List (String × α)) (key : String) : List (String × α) :=
  l.filter (fun p => p.1 ≠ key)

/-! ## api-utils: error classification (src/unnamed/part_000, `ApiError`) -/

/-- Error kinds of the request layer (`ERROR_TYPES`, part_000 lines 41-51). -/
inductive ErrType
  | network
  | timeout
  | rate_limit
  | auth
  | permission
  | not_found
  | bad_request
  | server
  | unknown
  deriving DecidableEq, Repr

/-- An `ApiError`: classified kind plus the optional HTTP status
(`status = none` models the constructor default `status = null`; message,
details and cause carry no logic and are omitted). -/
structure ApiErrorS where
  type : ErrType
  status : Option Int
  deriving DecidableEq, Repr

/-- `ApiError.isRetryable` (part_000 lines 79-86): network, timeout and
rate-limit errors retry, server errors retry when status >= 500 (a `null`
status compares false in JS, hence the `none => false` branch). -/
def isRetryable (e : ApiErrorS) : Bool :=
  e.type = ErrType.network || e.type = ErrType.timeout ||
    e.type = ErrType.rate_limit ||
    (e.type = ErrType.server &&
      (match e.status with
       | some s => 500 ≤ s
       | none => false))

/-- `ApiError.fromResponse` (part_000 lines 94-139): classify a non-ok
response by status; the response-body parsing only fills the details
payload and is omitted. -/
def fromResponse (status : Int) : ApiErrorS :=
  let t :=
    if status = 401 then ErrType.auth
    else if status = 403 then ErrType.permission
    else if status = 404 then ErrType.not_found
    else if status = 429 then ErrType.rate_limit
    else if 400 ≤ status ∧ status < 500 then ErrType.bad_request
    else if 500 ≤ status then ErrType.server
    else ErrType.unknown
  ⟨t, some status⟩

/-- `ApiError.fromNetworkError` (part_000 lines 147-160): a rejected fetch
is a network error, or a timeout when it is an abort (the flag models
`error.name === 'AbortError' || error.message.includes('timeout')`). -/
def fromNetworkError (isAbort : Bool) : ApiErrorS :=
  ⟨if isAbort then ErrType.timeout else ErrType.network, none⟩

/-! ## api-utils: the retrying request executor (`executeRequest`) -/

/-- Outcome of one `fetch` call inside `executeRequest`: either the
transport resolves with a response (carrying a status and, abstractly, a
parsed JSON payload) or it rejects (with abort distinguished for timeout
classification). -/
inductive FetchOutcome
  | response (status : Int) (data : Nat)
  | networkFailure (isAbort : Bool)
  deriving DecidableEq, Repr

/-- `Response.ok` of the fetch API: status in the range 200-299. -/
def responseOk (status : Int) : Bool :=
  200 ≤ status && status < 300

/-- The classified error produced by one transport attempt, or `none` when
the attempt succeeds (`response.ok` and the body parses). -/
def attemptError : FetchOutcome → Option ApiErrorS
  | FetchOutcome.response status _ =>
    if responseOk status then none else some (fromResponse status)
  | FetchOutcome.networkFailure isAbort => some (fromNetworkError isAbort)

/-- `executeRequest` (part_000 lines 461-518), the retrying core of
`apiRequest.request`.  `transport n` is the outcome of the `fetch` on
attempt `n`.  Returns the settled result together with the number of
transport attempts performed.  The recursion `executeRequest(attempt + 1)`
is guarded by `attempt < retries`, so its depth is bounded by
`retries + 1`; the embedding makes that bound a structural fuel argument
(started at `retries + 1` by `apiRequestRun`, below) and the sentinel
`fuel = 0` branch is proved unreachable in theorem `c2`.  Backoff delays
and jitter only affect timing, never the attempt count or result, and are
omitted; response caching on success has no effect on the settled value. -/
def executeRequest (transport : Nat → FetchOutcome) (retries : Nat) :
    Nat → Nat → Except ApiErrorS Nat × Nat
  | 0, _ => (Except.error ⟨ErrType.unknown, none⟩, 0)
  | fuel + 1, attempt =>
    let retryOrThrow := fun (apiError : ApiErrorS) =>
      if attempt < retries ∧ isRetryable apiError = true then
        let r := executeRequest transport retries fuel (attempt + 1)
        (r.1, r.2 + 1)
      else (Except.error apiError, 1)
    match transport attempt with
    | FetchOutcome.response status data =>
      if responseOk status then (Except.ok data, 1)
      else retryOrThrow (fromResponse status)
    | FetchOutcome.networkFailure isAbort => retryOrThrow (fromNetworkError isAbort)

/-- One logical `apiRequest.request` on the network path (cache miss or
non-cacheable): the executor starts at `attempt = 0`.  Admission through
the rate limiter (immediate or queued) does not change how many transport
attempts the executor performs nor the settled value. -/
def apiRequestRun (transport : Nat → FetchOutcome) (retries : Nat) :
    Except ApiErrorS Nat × Nat :=
  executeRequest transport retries (retries + 1) 0

/-! ## api-utils: cache keys (`apiRequest.createCacheKey`) -/

/-- A JS request body as `createCacheKey` sees it: absent (`options.body ||
''` yields the empty string), a string (used verbatim), or a non-string
value carried together with its `JSON.stringify` image. -/
inductive JsBody
  | noBody
  | strBody (s : String)
  | objBody (json : String)
  deriving DecidableEq, Repr

/-- The `bodyStr` computed by `createCacheKey` (part_000 line 353):
`typeof body === 'string' ? body : JSON.stringify(body)` after
`options.body || ''`. -/
def bodyString : JsBody → String
  | JsBody.noBody => ""
  | JsBody.strBody s => s
  | JsBody.objBody json => json

/-- Request options as far as `createCacheKey` inspects them: the method,
the body, and the headers object represented by its `JSON.stringify`
image (`headerStr`, part_000 line 352). -/
structure CacheKeyOptions where
  method : String
  body : JsBody
  headersJson : String
  deriving DecidableEq, Repr

/-- `apiRequest.createCacheKey` (part_000 lines 340-356): for GET the key
is `method:url`; for other methods the serialized headers and body are
folded in. -/
def createCacheKey (url : String) (o : CacheKeyOptions) : String :=
  if o.method = "GET" then o.method ++ ":" ++ url
  else o.method ++ ":" ++ url ++ ":" ++ o.headersJson ++ ":" ++ bodyString o.body

/-! ## api-utils: the rate limiter (`rateLimiter`, part_000 lines 166-304) -/

/-- Per-resource rate limiter state (`rateLimiter._state[apiId]`).
Ceilings are the configured non-negative integers; `activeRequests` is
kept as `Int` because the source guards against negativity explicitly
(`Math.max(0, ...)`), so the bound is a theorem rather than a typing
artifact.  Timestamps are `Int` milliseconds.  The deferred-request queue
holds thunks whose execution is modelled by the step relation below, so
only its length matters here and the descriptors are not carried. -/
structure RLState where
  requestsPerMinute : Nat
  concurrentRequests : Nat
  activeRequests : Int
  requestHistory : List Int
  deriving DecidableEq, Repr

/-- `rateLimiter.checkLimit` (lines 201-216): refuse when the concurrency
ceiling is reached; otherwise prune history entries older than 60s and
test the per-minute ceiling.  Returns the verdict together with the
mutated state (the pruning is a real state change). -/
def checkLimit (now : Int) (st : RLState) : Bool × RLState :=
  if (st.concurrentRequests : Int) ≤ st.activeRequests then (false, st)
  else
    let oneMinuteAgo := now - 60000
    let hist := st.requestHistory.filter (fun t => oneMinuteAgo < t)
    (decide (hist.length < st.requestsPerMinute),
     { st with requestHistory := hist })

/-- `rateLimiter.recordRequest` (lines 222-227): push the current
timestamp and increment the in-flight count. -/
def recordRequest (now : Int) (st : RLState) : RLState :=
  { st with
    requestHistory := st.requestHistory ++ [now],
    activeRequests := st.activeRequests + 1 }

/-- `rateLimiter.recordCompletion` (lines 233-238): decrement the
in-flight count, floored at zero (queue draining it triggers is a
separate step of the relation below). -/
def recordCompletion (st : RLState) : RLState :=
  { st with activeRequests := max 0 (st.activeRequests - 1) }

/-- Fresh limiter state created by `rateLimiter.init`. -/
def rlInit (requestsPerMinute concurrentRequests : Nat) : RLState :=
  ⟨requestsPerMinute, concurrentRequests, 0, []⟩

/-- One observable transition of a resource's limiter state.  `check` is a
`checkLimit` probe (its pruning mutates the state even on refusal);
`admission` is the synchronous `checkLimit`-then-`recordRequest` sequence used
on both admission paths (`apiRequest.request` lines 522-528 and
`_processQueue` lines 285-295) — `recordRequest` is called only after
`checkLimit` returned true, with its own later `Date.now()`; `complete`
is `recordCompletion` when a request settles.  Enqueuing touches only the
queue, not these fields. -/
inductive RLStep : RLState → RLState → Prop
  | check (now : Int) (st : RLState) : RLStep st (checkLimit now st).2
  | admission (now now' : Int) (st : RLState)
      (h : (checkLimit now st).1 = true) :
      RLStep st (recordRequest now' (checkLimit now st).2)
  | complete (st : RLState) : RLStep st (recordCompletion st)

/-- States reachable from an initial limiter state by any interleaving of
checks, admissions and completions. -/
def RLReachable (init st : RLState) : Prop :=
  Relation.ReflTransGen RLStep init st

/-- The safety property of claim C3: the in-flight count stays within
`[0, concurrentRequests]`. -/
def RLInv (st : RLState) : Prop :=
  0 ≤ st.activeRequests ∧ st.activeRequests ≤ (st.concurrentRequests : Int)

/-! ## api-manager (src/background/api-manager.js) -/

/-- The `authType` field of an `API_CONFIG` entry. -/
inductive AuthType
  | noAuth
  | apiKey
  | oauth
  deriving DecidableEq, Repr

/-- `API_CONFIG` (api-manager.js lines 13-79), restricted to the fields
the modelled operations read: the auth type per known service id.  (Rate
limits are forwarded to the rate limiter modelled above; display metadata
and cache TTLs carry no logic here.) -/
def API_CONFIG : List (String × AuthType) :=
  [("google_translate", AuthType.apiKey),
   ("claude", AuthType.apiKey),
   ("dictionary", AuthType.noAuth),
   ("exchange_rates", AuthType.noAuth),
   ("web_archive", AuthType.noAuth)]

/-- A per-service usage-statistics record (`usageStats[apiId]`).
`lastError` keeps the timestamp and classified kind; the free-text
message carries no logic. -/
structure UsageStats where
  requestCount : Nat
  lastRequest : Option Int
  errorCount : Nat
  lastError : Option (Int × ErrType)
  quotaUsage : Nat
  deriving DecidableEq, Repr

/-- The zeroed record `recordRequestAttempt` creates for a service seen
for the first time. -/
def freshStats : UsageStats :=
  ⟨0, none, 0, none, 0⟩

/-- A thrown error as `makeRequest`/`handleApiError` observe it:
`apiType = some t` when `error instanceof ApiError` with kind `t`,
`none` for any other thrown value; `tag` models the identity of the
error object, so "rejects with that same error" is equality. -/
structure Thrown where
  apiType : Option ErrType
  tag : Nat
  deriving DecidableEq, Repr

/-- API-manager runtime state touched by the request-accounting path:
usage statistics per service and the set of service ids holding a cached
OAuth token (`authTokens`). -/
structure AMState where
  usageStats : List (String × UsageStats)
  authTokens : List String
  deriving DecidableEq, Repr

/-- `recordRequestAttempt` (api-manager.js lines 522-538): create the
service's entry if missing, then bump `requestCount` and stamp
`lastRequest`.  Never writes to storage. -/
def recordRequestAttempt (now : Int) (st : AMState) (apiId : String) : AMState :=
  let stats := (lookupKey st.usageStats apiId).getD freshStats
  { st with
    usageStats := setKey st.usageStats apiId
      { stats with requestCount := stats.requestCount + 1, lastRequest := some now } }

/-- `recordRequestSuccess` (lines 545-555): no-op when the entry is
missing; otherwise bump `quotaUsage` and persist the statistics when the
(attempt-counting) `requestCount` is a multiple of 10.  The returned flag
is whether `saveUsageStats` was called. -/
def recordRequestSuccess (st : AMState) (apiId : String) : AMState × Bool :=
  match lookupKey st.usageStats apiId with
  | none => (st, false)
  | some stats =>
    let st' := { st with
      usageStats := setKey st.usageStats apiId
        { stats with quotaUsage := stats.quotaUsage + 1 } }
    (st', stats.requestCount % 10 = 0)

/-- `handleApiError` (lines 564-588): if the service has no statistics
entry it returns early — the error is swallowed (flag `rethrown = false`)
and nothing is saved; otherwise it bumps `errorCount`, snapshots the
error, saves the statistics immediately, clears a cached OAuth token on
an auth-classified `ApiError` for an oauth-type service, and rethrows.
Returns (state, saved, rethrown). -/
def handleApiError (now : Int) (st : AMState) (apiId : String) (e : Thrown) :
    AMState × Bool × Bool :=
  match lookupKey st.usageStats apiId with
  | none => (st, false, false)
  | some stats =>
    let stats' := { stats with
      errorCount := stats.errorCount + 1,
      lastError := some (now, e.apiType.getD ErrType.unknown) }
    let st' := { st with usageStats := setKey st.usageStats apiId stats' }
    let st'' :=
      if e.apiType = some ErrType.auth ∧
          lookupKey API_CONFIG apiId = some AuthType.oauth then
        { st' with authTokens := st'.authTokens.filter (fun a => a ≠ apiId) }
      else st'
    (st'', true, true)

/-- Result of a `makeRequest` call: resolves with the thunk's data,
resolves with `undefined` (the value `handleApiError` returns when it
swallows the error), rejects with the thrown error, or throws
synchronously for an unknown service id. -/
inductive MRResult
  | ok (data : Nat)
  | okUndefined
  | err (e : Thrown)
  | unknownApi
  deriving DecidableEq, Repr

/-- `makeRequest` (lines 495-515): reject unknown ids, account the
attempt, run the thunk, then account success or route the error through
`handleApiError`.  Returns the settled result, the new state, and whether
this call wrote the statistics to storage. -/
def makeRequest (now : Int) (st : AMState) (apiId : String)
    (thunk : Except Thrown Nat) : MRResult × AMState × Bool :=
  if hasKey API_CONFIG apiId = false then (MRResult.unknownApi, st, false)
  else
    let st1 := recordRequestAttempt now st apiId
    match thunk with
    | Except.ok d =>
      let (st2, saved) := recordRequestSuccess st1 apiId
      (MRResult.ok d, st2, saved)
    | Except.error e =>
      let (st2, saved, rethrown) := handleApiError now st1 apiId e
      ((if rethrown then MRResult.err e else MRResult.okUndefined), st2, saved)

/-- Fold a sequence of `makeRequest` calls for one service over the
state, collecting for each call whether the thunk succeeded and whether
the call persisted the statistics. -/
def runCalls (now : Int) (apiId : String) :
    List (Except Thrown Nat) → AMState → AMState × List (Bool × Bool)
  | [], st => (st, [])
  | thunk :: rest, st =>
    let (_, st', saved) := makeRequest now st apiId thunk
    let (stFin, log) := runCalls now apiId rest st'
    (stFin, (thunk.isOk, saved) :: log)

/-! ## feature-manager (src/background/feature-manager.js)

The manager's relevant state is the module-level `featureRegistry`,
`activeFeatures` and `pendingActivations` maps plus the instance fields
`activationQueue` and `processingQueue`.  Execution is a JS event loop:
code runs synchronously between `await` suspension points, and a promise
settles only when some running task resolves it.  The embedding below
follows the source block by block and makes one semantic judgement
explicit, marked where it is used: a task that awaits a promise which no
live task can ever resolve never resumes (outcome `hung`). -/

/-- A registered feature definition (the fields `_activateFeature` and
`deactivateFeature` read).  User-supplied lifecycle hooks are opaque
callbacks; the embedding records whether each hook is present and, for
`onActivate`, whether invoking it returns normally (`onActivateOk =
true`) or throws.  `onDeactivate` outcomes are irrelevant to control
flow (the source catches and logs them), so only presence is kept. -/
structure FeatureDef where
  name : String
  category : String
  permissions : List String
  optionalPermissions : List String
  hostPermissions : List String
  dependencies : List String
  conflicts : List String
  hasOnActivate : Bool
  onActivateOk : Bool
  hasOnDeactivate : Bool
  deriving DecidableEq, Repr

/-- A live feature instance (`FeatureInstance`): its id, the definition
captured at activation, and the resolved settings (an opaque payload
from the settings store; `active` is always true for a stored instance
and the `deactivate` closure carries no state). -/
structure FeatureInstance where
  id : String
  defn : FeatureDef
  settings : String
  deriving DecidableEq, Repr

/-- Errors thrown by the activation pipeline.  `depActivationFailed` is
the wrapper of line 614 (`Failed to activate dependency ...`); the
embedding keeps the constructor because the source path exists, but no
run produces it: the awaited dependency activation never settles (see
`runDeps`). -/
inductive FmErr
  | notRegistered (fid : String)
  | depNotFound (dep fid : String)
  | depActivationFailed (dep fid : String)
  | conflictActive (fid cid : String)
  | permissionsMissing (fid : String)
  | optionalDenied (fid : String)
  | hostDenied (fid : String)
  | hookFailed (fid : String)
  deriving DecidableEq, Repr

/-- Observable lifecycle events, in execution order: an `onActivate` hook
invocation, an installation into `activeFeatures`, an `onDeactivate`
hook invocation, a removal from `activeFeatures`. -/
inductive FmEvent
  | activateHook (fid : String)
  | activated (fid : String)
  | deactivateHook (fid : String)
  | removed (fid : String)
  deriving DecidableEq, Repr

/-- The number of `onActivate` invocations for `fid` recorded in an event
trace. -/
def hookCount (fid : String) (ev : List FmEvent) : Nat :=
  ev.count (FmEvent.activateHook fid)

/-- The external collaborators of an activation: the permission broker
(`chrome.permissions.contains` over the granted set, and the user's
answer to `chrome.permissions.request` prompts) and the settings store
(`storageManager.getSetting`, whose payload is opaque here). -/
structure PermEnv where
  granted : List String
  requestGranted : Bool
  settingsFor : String → String

/-- Feature-manager state: the registry, the active map, the key set of
`pendingActivations`, the `activationQueue`, and the `processingQueue`
flag.  Lists keep JS `Map` insertion order. -/
structure FMState where
  registry : List (String × FeatureDef)
  active : List (String × FeatureInstance)
  pendingIds : List String
  queue : List String
  processing : Bool
  deriving DecidableEq, Repr

/-- Outcome of the dependency loop at the top of `_activateFeature`
(lines 602-618). -/
inductive DepOutcome
  | passed
  | depThrew (e : FmErr)
  | depHung
  deriving DecidableEq, Repr

/-- The dependency loop of `_activateFeature`: an unregistered dependency
throws; an active dependency is skipped; an inactive registered
dependency is activated via `await this.activateFeature(dependencyId)`.
That inner call runs while this worker is processing the queue: it joins
or creates the dependency's pending entry and pushes the dependency onto
`activationQueue`, but does not start a second worker (`processingQueue`
is true, line 544), and returns the pending promise.  Only the worker's
own loop ever resolves pending activations (lines 570-582), and that
loop is blocked awaiting this very `_activateFeature` — so the await can
never resume.  The embedding records this as `depHung` with the pending
entry and queue item the inner call left behind. -/
def runDeps (fid : String) : List String → FMState → DepOutcome × FMState
  | [], s => (DepOutcome.passed, s)
  | dep :: rest, s =>
    if hasKey s.registry dep = false then
      (DepOutcome.depThrew (FmErr.depNotFound dep fid), s)
    else if hasKey s.active dep then runDeps fid rest s
    else if s.pendingIds.contains dep then (DepOutcome.depHung, s)
    else
      (DepOutcome.depHung,
       { s with pendingIds := s.pendingIds ++ [dep], queue := s.queue ++ [dep] })

/-- Result of one `_activateFeature` body: normal return with the new
instance, a thrown error, or a forever-suspended await. -/
inductive PipeRes
  | ok (inst : FeatureInstance)
  | threw (e : FmErr)
  | hung
  deriving DecidableEq, Repr

/-- `_activateFeature` (lines 596-714): dependency loop, conflict check
(throws at the first declared conflict that is active), required
permissions (fail without prompting), optional and host permissions
(prompt; fail if the user declines), settings resolution, `onActivate`
invocation (a throw aborts activation), then installation into
`activeFeatures`.  The broadcast of `feature:activated` is fire-and-
forget and not modelled. -/
def activatePipeline (env : PermEnv) (s : FMState) (fid : String) (defn : FeatureDef) :
    PipeRes × FMState × List FmEvent :=
  match runDeps fid defn.dependencies s with
  | (DepOutcome.depThrew e, s') => (PipeRes.threw e, s', [])
  | (DepOutcome.depHung, s') => (PipeRes.hung, s', [])
  | (DepOutcome.passed, s') =>
    match defn.conflicts.find? (fun c => hasKey s'.active c) with
    | some cid => (PipeRes.threw (FmErr.conflictActive fid cid), s', [])
    | none =>
      if defn.permissions ≠ [] ∧
          defn.permissions.all (fun p => env.granted.contains p) = false then
        (PipeRes.threw (FmErr.permissionsMissing fid), s', [])
      else if defn.optionalPermissions ≠ [] ∧
          defn.optionalPermissions.all (fun p => env.granted.contains p) = false ∧
          env.requestGranted = false then
        (PipeRes.threw (FmErr.optionalDenied fid), s', [])
      else if defn.hostPermissions ≠ [] ∧
          defn.hostPermissions.all (fun p => env.granted.contains p) = false ∧
          env.requestGranted = false then
        (PipeRes.threw (FmErr.hostDenied fid), s', [])
      else
        let inst : FeatureInstance := ⟨fid, defn, env.settingsFor fid⟩
        if defn.hasOnActivate then
          if defn.onActivateOk then
            (PipeRes.ok inst,
             { s' with active := setKey s'.active fid inst },
             [FmEvent.activateHook fid, FmEvent.activated fid])
          else
            (PipeRes.threw (FmErr.hookFailed fid), s', [FmEvent.activateHook fid])
        else
          (PipeRes.ok inst,
           { s' with active := setKey s'.active fid inst },
           [FmEvent.activated fid])

/-- How one external `activateFeature` call settles: resolves with an
instance, rejects with an error, never settles (`hung`), or the run
exhausted the embedding's fuel (`fuelOut`, never the source's
behaviour). -/
inductive CallOut
  | resolvedInstance (inst : FeatureInstance)
  | rejected (e : FmErr)
  | hung
  | fuelOut
  deriving DecidableEq, Repr

/-- Result of a worker run (`processActivationQueue`): whether it blocked
forever, whether fuel ran out, the final state, the emitted events, and
the pending entries it settled (in order) with their outcomes. -/
structure QRun where
  hung : Bool
  fuelOut : Bool
  state : FMState
  events : List FmEvent
  resolved : List (String × CallOut)
  deriving DecidableEq, Repr

/-- The worker loop of `processActivationQueue` (lines 562-584): shift an
id off the queue, skip it if no longer pending, run `_activateFeature`,
then delete the pending entry and settle all its joined promises with
the instance or the error.  A `hung` pipeline blocks the loop forever:
the `finally` that clears `processingQueue` never runs.  Fuel bounds the
number of iterations; every theorem below either supplies enough fuel or
takes non-exhaustion as a hypothesis. -/
def processQueueLoop (env : PermEnv) : Nat → FMState → QRun
  | 0, s => ⟨false, true, s, [], []⟩
  | fuel + 1, s =>
    match s.queue with
    | [] => ⟨false, false, { s with processing := false }, [], []⟩
    | fid :: rest =>
      let s1 := { s with queue := rest }
      if s1.pendingIds.contains fid = false then processQueueLoop env fuel s1
      else
        match lookupKey s1.registry fid with
        | none =>
          -- featureRegistry.get returned undefined; the body of
          -- _activateFeature throws on it and the catch rejects
          let s2 := { s1 with pendingIds := s1.pendingIds.filter (fun i => i ≠ fid) }
          let r := processQueueLoop env fuel s2
          ⟨r.hung, r.fuelOut, r.state, r.events,
           (fid, CallOut.rejected (FmErr.notRegistered fid)) :: r.resolved⟩
        | some defn =>
          match activatePipeline env s1 fid defn with
          | (PipeRes.hung, s2, ev) => ⟨true, false, s2, ev, []⟩
          | (PipeRes.threw e, s2, ev) =>
            let s3 := { s2 with pendingIds := s2.pendingIds.filter (fun i => i ≠ fid) }
            let r := processQueueLoop env fuel s3
            ⟨r.hung, r.fuelOut, r.state, ev ++ r.events,
             (fid, CallOut.rejected e) :: r.resolved⟩
          | (PipeRes.ok inst, s2, ev) =>
            let s3 := { s2 with pendingIds := s2.pendingIds.filter (fun i => i ≠ fid) }
            let r := processQueueLoop env fuel s3
            ⟨r.hung, r.fuelOut, r.state, ev ++ r.events,
             (fid, CallOut.resolvedInstance inst) :: r.resolved⟩

/-- `processActivationQueue` (lines 556-588): the reentrancy guard, then
the worker loop with `processingQueue` set. -/
def processActivationQueue (env : PermEnv) (fuel : Nat) (s : FMState) : QRun :=
  if s.processing then ⟨false, false, s, [], []⟩
  else processQueueLoop env fuel { s with processing := true }

/-- One external `activateFeature(featureId)` call (lines 512-549) with
no other concurrent activity: unknown id rejects; an active feature
resolves immediately with its instance; a pending one joins the existing
entry (with no other activity in the run, nothing ever settles it); a
fresh one creates the pending entry, queues the id and, unless a worker
is already running, starts the worker and settles with the outcome the
worker recorded for the id. -/
def activateFeatureRun (env : PermEnv) (fuel : Nat) (s : FMState) (fid : String) :
    CallOut × FMState × List FmEvent :=
  match lookupKey s.registry fid with
  | none => (CallOut.rejected (FmErr.notRegistered fid), s, [])
  | some _ =>
    match lookupKey s.active fid with
    | some inst => (CallOut.resolvedInstance inst, s, [])
    | none =>
      if s.pendingIds.contains fid then (CallOut.hung, s, [])
      else
        let s1 := { s with
          pendingIds := s.pendingIds ++ [fid], queue := s.queue ++ [fid] }
        if s1.processing then (CallOut.hung, s1, [])
        else
          let r := processActivationQueue env fuel s1
          let out :=
            if r.fuelOut then CallOut.fuelOut
            else
              match lookupKey r.resolved fid with
              | some o => o
              | none => CallOut.hung
          (out, r.state, r.events)

/-- When call 2 of an interleaved pair lands, relative to call 1's
activation run: `early` is any suspension point strictly inside the
`_activateFeature` body (a permission check or prompt, or the hook
await); `late` is the last boundary before call 1 settles — the
microtask gap between the end of `_activateFeature` and the worker's
continuation that deletes the pending entry and resolves the
promises. -/
inductive Arrival
  | early
  | late
  deriving DecidableEq, Repr

/-- Two interleaved `activateFeature(fid)` calls from a quiescent state
(no worker running, empty queue, no pending entries).  Call 1 runs
synchronously through lines 512-548: it creates the pending entry,
queues `fid`, and starts the worker, which shifts `fid` and enters
`_activateFeature`.  Call 2 arrives at a later suspension point.  At
every `early` point, and at the `late` point of a failing or hanging
run, `fid` is still inactive and pending, so call 2 takes the join
branch (lines 525-531): it is settled, if ever, by the same worker
resolution as call 1 and triggers no second pipeline run.  At the `late`
point of a successful run `fid` is already in `activeFeatures`, so call
2 returns the installed instance (lines 520-522). -/
def twoInterleavedActivate (env : PermEnv) (reg : List (String × FeatureDef))
    (act : List (String × FeatureInstance)) (fid : String) (arrival : Arrival) :
    CallOut × CallOut × FMState × List FmEvent :=
  let s0 : FMState := ⟨reg, act, [], [], false⟩
  match lookupKey reg fid with
  | none =>
    (CallOut.rejected (FmErr.notRegistered fid),
     CallOut.rejected (FmErr.notRegistered fid), s0, [])
  | some defn =>
    match lookupKey act fid with
    | some inst => (CallOut.resolvedInstance inst, CallOut.resolvedInstance inst, s0, [])
    | none =>
      let s1 : FMState := ⟨reg, act, [fid], [], true⟩
      match activatePipeline env s1 fid defn with
      | (PipeRes.hung, s2, ev) =>
        -- the worker is blocked on a dependency promise forever; call 2
        -- joins the still-pending entry and also never settles
        (CallOut.hung, CallOut.hung, s2, ev)
      | (PipeRes.threw e, s2, ev) =>
        (CallOut.rejected e, CallOut.rejected e,
         { s2 with
           pendingIds := s2.pendingIds.filter (fun i => i ≠ fid),
           processing := false },
         ev)
      | (PipeRes.ok inst, s2, ev) =>
        let sFin := { s2 with
          pendingIds := s2.pendingIds.filter (fun i => i ≠ fid),
          processing := false }
        match arrival with
        | Arrival.early =>
          (CallOut.resolvedInstance inst, CallOut.resolvedInstance inst, sFin, ev)
        | Arrival.late =>
          let out2 :=
            match lookupKey s2.active fid with
            | some i => CallOut.resolvedInstance i
            | none => CallOut.hung
          (CallOut.resolvedInstance inst, out2, sFin, ev)

/-- The conjunction of the pre-hook checks of `_activateFeature` after
the dependency loop: no declared conflict active, required permissions
granted, optional and host permissions granted or successfully
prompted.  (Derived predicate used to state when the pipeline reaches
the `onActivate` hook.) -/
def preHookChecksPass (env : PermEnv) (act : List (String × FeatureInstance))
    (defn : FeatureDef) : Bool :=
  (defn.conflicts.find? (fun c => hasKey act c)).isNone &&
  (defn.permissions.isEmpty || defn.permissions.all (fun p => env.granted.contains p)) &&
  (defn.optionalPermissions.isEmpty ||
    defn.optionalPermissions.all (fun p => env.granted.contains p) ||
    env.requestGranted) &&
  (defn.hostPermissions.isEmpty ||
    defn.hostPermissions.all (fun p => env.granted.contains p) ||
    env.requestGranted)

/-- The dependent-cascade loop of `deactivateFeature` (lines 732-740),
parameterised by the recursive deactivation call.  It walks the
insertion-order snapshot of `activeFeatures`; an entry deleted by an
earlier recursive cascade is skipped (a JS `Map` iterator does not
yield deleted entries), a surviving entry whose captured definition
lists `fid` as a dependency is deactivated first.  A `none` from the
recursive call (fuel exhaustion in the embedding) aborts the run. -/
def cascadeDependents
    (deact : FMState → String → Option Bool × FMState × List FmEvent)
    (fid : String) : List String → FMState → Option Unit × FMState × List FmEvent
  | [], s => (some (), s, [])
  | aid :: rest, s =>
    if aid = fid then cascadeDependents deact fid rest s
    else
      match lookupKey s.active aid with
      | none => cascadeDependents deact fid rest s
      | some inst =>
        if inst.defn.dependencies.contains fid then
          match deact s aid with
          | (none, s', ev) => (none, s', ev)
          | (some _, s', ev) =>
            match cascadeDependents deact fid rest s' with
            | (r, s'', ev') => (r, s'', ev ++ ev')
        else cascadeDependents deact fid rest s

/-- `deactivateFeature` (lines 721-765): a no-op returning false when the
feature is not active; otherwise cascade over active dependents first,
then invoke `onDeactivate` if present (a thrown hook error is caught and
logged — it never blocks what follows, which is why the hook's outcome
does not appear in the state), remove the instance, and return true.
The source recursion is bounded by the active set in every state the
manager can reach (a dependency cycle among active features would be
needed to exceed it, and activation order makes active dependencies
acyclic); the embedding uses structural fuel, returning `none` if it
runs out. -/
def deactivateFeature : Nat → FMState → String → Option Bool × FMState × List FmEvent
  | 0, s, _ => (none, s, [])
  | fuel + 1, s, fid =>
    match lookupKey s.active fid with
    | none => (some false, s, [])
    | some inst =>
      match cascadeDependents (deactivateFeature fuel) fid (s.active.map Prod.fst) s with
      | (none, s1, ev) => (none, s1, ev)
      | (some _, s1, ev) =>
        let hookEv := if inst.defn.hasOnDeactivate then [FmEvent.deactivateHook fid] else []
        let s2 := { s1 with active := eraseKey s1.active fid }
        (some true, s2, ev ++ hookEv ++ [FmEvent.removed fid])

/-! ## Concrete scenarios used by witnesses and counterexamples -/

/-- A permission environment with nothing granted and prompts accepted;
features below declare no permissions, so only `settingsFor` is read. -/
def permEnvTriv : PermEnv :=
  ⟨[], true, fun _ => ""⟩

/-- A leaf feature with no dependencies, conflicts, permissions or hooks. -/
def defLeafB : FeatureDef :=
  ⟨"B", "utilities", [], [], [], [], [], false, true, false⟩

/-- A feature declaring the single dependency `"B"` and an activation
hook. -/
def defDepA : FeatureDef :=
  ⟨"A", "utilities", [], [], [], ["B"], [], true, true, false⟩

/-- Quiescent state with `defDepA` and `defLeafB` registered and nothing
active: the failing input of claim C1. -/
def c1State : FMState :=
  ⟨[("A", defDepA), ("B", defLeafB)], [], [], [], false⟩

/-- A conflict-free leaf feature `"C"`. -/
def defLeafC : FeatureDef :=
  ⟨"C", "utilities", [], [], [], [], [], false, true, false⟩

/-- The live instance of `defLeafC`. -/
def instLeafC : FeatureInstance :=
  ⟨"C", defLeafC, ""⟩

/-- A feature declaring `"C"` as a conflict, with an activation hook. -/
def defConflF : FeatureDef :=
  ⟨"F", "utilities", [], [], [], [], ["C"], true, true, false⟩

/-- State with `"C"` active and `defConflF` registered. -/
def c7State : FMState :=
  ⟨[("C", defLeafC), ("F", defConflF)], [("C", instLeafC)], [], [], false⟩

/-- The live instance of `defLeafB`. -/
def instLeafB : FeatureInstance :=
  ⟨"B", defLeafB, ""⟩

/-- A feature depending on `"B"` with deactivation hook present (used for
the deactivation cascade); its activation hook is absent. -/
def defDepA9 : FeatureDef :=
  ⟨"A", "utilities", [], [], [], ["B"], [], false, true, true⟩

/-- The live instance of `defDepA9`. -/
def instDepA9 : FeatureInstance :=
  ⟨"A", defDepA9, ""⟩

/-- State with `"B"` and `"A"` both active, `"A"` depending on `"B"`: the
scenario of claim C9. -/
def c9State : FMState :=
  ⟨[("A", defDepA9), ("B", defLeafB)], [("B", instLeafB), ("A", instDepA9)], [], [], false⟩

/-- A feature declaring both the dependency `"B"` (inactive below) and
the conflict `"C"` (active below), with an activation hook. -/
def defDepConflF : FeatureDef :=
  ⟨"F", "utilities", [], [], [], ["B"], ["C"], true, true, false⟩

/-- State with `"C"` active, `"B"` registered but inactive, and
`defDepConflF` registered: the counterexample input of claim C7. -/
def c7DepState : FMState :=
  ⟨[("F", defDepConflF), ("B", defLeafB), ("C", defLeafC)],
   [("C", instLeafC)], [], [], false⟩

/-- A thrown `ApiError` of kind server (tag 0). -/
def thrownServer : Thrown :=
  ⟨some ErrType.server, 0⟩

/-- The C8 counterexample trace: one failing call followed by nine
successes. -/
def c8Trace : List (Except Thrown Nat) :=
  Except.error thrownServer ::
    List.replicate 9 (Except.ok 1)

/-! # Theorems

Helper lemmas come first, then one theorem per claim (with witnesses and
counterexamples as required). -/

/-! ## Claim C2: retry bound of the request executor -/

/-- Unfolding lemma: when attempt `attempt` fails with classified error
`e`, the executor either recurses (retryable and retries left) counting
one more attempt, or settles with `e` after this single attempt. -/
theorem executeRequest_fail_step (transport : Nat → FetchOutcome)
    (retries fuel attempt : Nat) (e : ApiErrorS)
    (he : attemptError (transport attempt) = some e) :
    executeRequest transport retries (fuel + 1) attempt =
      if attempt < retries ∧ isRetryable e = true then
        ((executeRequest transport retries fuel (attempt + 1)).1,
         (executeRequest transport retries fuel (attempt + 1)).2 + 1)
      else (Except.error e, 1) := by
  conv_lhs => unfold executeRequest
  cases htr : transport attempt with
  | response status data =>
    rw [htr] at he
    unfold attemptError at he
    by_cases hok : responseOk status = true
    · simp [hok] at he
    · have hokf : responseOk status = false := by simpa using hok
      simp only [hokf, Bool.false_eq_true, if_false, Option.some.injEq] at he
      simp [hokf, he]
  | networkFailure isAbort =>
    rw [htr] at he
    unfold attemptError at he
    simp only [Option.some.injEq] at he
    simp [he]

/-- Inductive core of C2 continued: from any attempt index with `k`
retries left, all-retryable failures drive the executor to `k + 1`
further transport attempts and the classified error of the last one. -/
theorem executeRequest_allRetryable (transport : Nat → FetchOutcome) (retries : Nat) :
    ∀ k attempt, attempt + k = retries →
      (∀ n, attempt ≤ n → n ≤ retries →
        ∃ e, attemptError (transport n) = some e ∧ isRetryable e = true) →
      ∃ e, attemptError (transport retries) = some e ∧
        executeRequest transport retries (k + 1) attempt = (Except.error e, k + 1) := by
  intro k
  induction k with
  | zero =>
    intro attempt hk h
    have ha : attempt = retries := by omega
    subst ha
    obtain ⟨e, he, hr⟩ := h attempt (le_refl _) (le_refl _)
    refine ⟨e, he, ?_⟩
    rw [executeRequest_fail_step transport attempt 0 attempt e he]
    simp [lt_irrefl]
  | succ k ih =>
    intro attempt hk h
    have hlt : attempt < retries := by omega
    obtain ⟨ea, hea, hra⟩ := h attempt (le_refl _) (by omega)
    obtain ⟨e, he, hrec⟩ := ih (attempt + 1) (by omega)
      (fun n hn1 hn2 => h n (by omega) hn2)
    refine ⟨e, he, ?_⟩
    rw [executeRequest_fail_step transport retries (k + 1) attempt ea hea]
    simp [hlt, hra, hrec]

/-- Claim C2: when every transport attempt fails with a retryable error
(network, timeout, rate-limit, or server with status >= 500), a
`request` call configured with `retries` performs exactly `retries + 1`
transport attempts and then rejects with the classified `ApiError` of
the last attempt.  The attempt recursion terminates: the fuel
`retries + 1` given by `apiRequestRun` is exactly consumed and the
sentinel branch is never reached. -/
theorem c2 (transport : Nat → FetchOutcome) (retries : Nat)
    (h : ∀ n, n ≤ retries →
      ∃ e, attemptError (transport n) = some e ∧ isRetryable e = true) :
    ∃ e, attemptError (transport retries) = some e ∧
      apiRequestRun transport retries = (Except.error e, retries + 1) := by
  have := executeRequest_allRetryable transport retries retries 0 (by omega)
    (fun n _ hn => h n hn)
  exact this

/-- Witness for C2 at a transport that always fails with a plain network
error and the default `retries = 3`: exactly 4 attempts, then the
network-classified error. -/
theorem c2_witness :
    apiRequestRun (fun _ => FetchOutcome.networkFailure false) 3 =
      (Except.error ⟨ErrType.network, none⟩, 4) := by
  obtain ⟨e, he, hr⟩ := c2 (fun _ => FetchOutcome.networkFailure false) 3
    (fun n _ => ⟨⟨ErrType.network, none⟩, rfl, rfl⟩)
  have he' : (⟨ErrType.network, none⟩ : ApiErrorS) = e := by
    simpa [attemptError, fromNetworkError] using he
  rw [← he'] at hr
  exact hr

/-! ## Claim C4: 404 short-circuit -/

/-- Claim C4: a 404 response is classified `not_found`, that kind is not
retryable, and the call rejects with it after exactly one transport
attempt, whatever the configured retry count. -/
theorem c4 (transport : Nat → FetchOutcome) (retries d : Nat)
    (h0 : transport 0 = FetchOutcome.response 404 d) :
    (fromResponse 404).type = ErrType.not_found ∧
    isRetryable (fromResponse 404) = false ∧
    apiRequestRun transport retries = (Except.error (fromResponse 404), 1) := by
  refine ⟨by decide, by decide, ?_⟩
  unfold apiRequestRun
  unfold executeRequest
  rw [h0]
  have hok : responseOk 404 = false := by decide
  have hret : isRetryable (fromResponse 404) = false := by decide
  simp [hok, hret]

/-- Witness for C4: concrete transport always answering 404, retries 3. -/
theorem c4_witness :
    apiRequestRun (fun _ => FetchOutcome.response 404 0) 3 =
      (Except.error (fromResponse 404), 1) :=
  (c4 (fun _ => FetchOutcome.response 404 0) 3 0 rfl).2.2

/-! ## Claim C5: cache key separation -/

/-- Shape of a POST cache key. -/
theorem createCacheKey_post (url hj : String) (b : JsBody) :
    createCacheKey url ⟨"POST", b, hj⟩ =
      "POST" ++ ":" ++ url ++ ":" ++ hj ++ ":" ++ bodyString b := by
  show (if ("POST" : String) = "GET" then ("POST" : String) ++ ":" ++ url
    else ("POST" : String) ++ ":" ++ url ++ ":" ++ hj ++ ":" ++ bodyString b) = _
  rw [if_neg (by decide : ¬("POST" : String) = "GET")]

/-- Shape of a GET cache key: it depends on the method and URL only. -/
theorem createCacheKey_get (url hj : String) (b : JsBody) :
    createCacheKey url ⟨"GET", b, hj⟩ = "GET" ++ ":" ++ url := by
  show (if ("GET" : String) = "GET" then ("GET" : String) ++ ":" ++ url
    else ("GET" : String) ++ ":" ++ url ++ ":" ++ hj ++ ":" ++ bodyString b) = _
  rw [if_pos rfl]

/-- Claim C5: two POST requests to the same URL with the same serialized
headers but distinct body serializations get distinct cache keys; every
POST key differs from the GET key of the same URL; and the GET key
depends only on the method and URL. -/
theorem c5 (url headersJson hj2 : String) (b1 b2 : JsBody)
    (hne : bodyString b1 ≠ bodyString b2) :
    createCacheKey url ⟨"POST", b1, headersJson⟩ ≠
      createCacheKey url ⟨"POST", b2, headersJson⟩ ∧
    (∀ b bg : JsBody, ∀ hj : String,
      createCacheKey url ⟨"POST", b, hj⟩ ≠ createCacheKey url ⟨"GET", bg, hj2⟩) ∧
    (∀ bg : JsBody, createCacheKey url ⟨"GET", bg, hj2⟩ = "GET" ++ ":" ++ url) := by
  refine ⟨?_, ?_, ?_⟩
  · intro h
    apply hne
    rw [createCacheKey_post url headersJson b1, createCacheKey_post url headersJson b2] at h
    have hd := congrArg String.data h
    simp only [String.data_append] at hd
    exact String.ext (List.append_cancel_left hd)
  · intro b bg hj h
    rw [createCacheKey_post url hj b, createCacheKey_get url hj2 bg] at h
    have hd := congrArg String.data h
    simp only [String.data_append] at hd
    simp only [List.cons_append, List.nil_append] at hd
    have hh := congrArg List.head? hd
    simp only [List.head?_cons] at hh
    exact absurd (Option.some.inj hh) (by decide)
  · intro bg
    exact createCacheKey_get url hj2 bg

/-- Witness for C5 at concrete bodies with distinct serializations. -/
theorem c5_witness :
    createCacheKey "https://x.test/v" ⟨"POST", JsBody.strBody "a", "\x7b\x7d"⟩ ≠
      createCacheKey "https://x.test/v" ⟨"POST", JsBody.strBody "b", "\x7b\x7d"⟩ :=
  (c5 "https://x.test/v" "\x7b\x7d" "\x7b\x7d" (JsBody.strBody "a") (JsBody.strBody "b")
    (by decide)).1

/-! ## Claim C3: rate limiter safety invariant -/

/-- A `checkLimit` probe never changes the in-flight count or the
ceilings. -/
theorem checkLimit_active (now : Int) (st : RLState) :
    (checkLimit now st).2.activeRequests = st.activeRequests ∧
    (checkLimit now st).2.concurrentRequests = st.concurrentRequests := by
  unfold checkLimit
  split <;> exact ⟨rfl, rfl⟩

/-- A positive `checkLimit` verdict means the in-flight count is strictly
below the concurrency ceiling. -/
theorem checkLimit_true_lt (now : Int) (st : RLState)
    (h : (checkLimit now st).1 = true) :
    st.activeRequests < (st.concurrentRequests : Int) := by
  unfold checkLimit at h
  by_cases hc : (st.concurrentRequests : Int) ≤ st.activeRequests
  · simp [hc] at h
  · omega

/-- Shape of a `recordRequest` result on the invariant-relevant fields. -/
theorem recordRequest_active (now : Int) (st : RLState) :
    (recordRequest now st).activeRequests = st.activeRequests + 1 ∧
    (recordRequest now st).concurrentRequests = st.concurrentRequests :=
  ⟨rfl, rfl⟩

/-- Shape of a `recordCompletion` result on the invariant-relevant
fields. -/
theorem recordCompletion_active (st : RLState) :
    (recordCompletion st).activeRequests = max 0 (st.activeRequests - 1) ∧
    (recordCompletion st).concurrentRequests = st.concurrentRequests :=
  ⟨rfl, rfl⟩

/-- Every limiter step preserves the invariant `0 ≤ activeRequests ≤
concurrentRequests`. -/
theorem rlStep_preserves_inv {s s' : RLState} (h : RLStep s s') (hi : RLInv s) :
    RLInv s' := by
  obtain ⟨h0, h1⟩ := hi
  cases h with
  | check now st2 =>
    obtain ⟨ha, hc⟩ := checkLimit_active now s
    exact ⟨by rw [ha]; exact h0, by rw [ha, hc]; exact h1⟩
  | admission now now' st2 hchk =>
    have hlt := checkLimit_true_lt now s hchk
    obtain ⟨ha, hc⟩ := checkLimit_active now s
    obtain ⟨ha', hc'⟩ := recordRequest_active now' (checkLimit now s).2
    constructor
    · rw [ha', ha]; omega
    · rw [ha', ha, hc', hc]; omega
  | complete st2 =>
    obtain ⟨ha, hc⟩ := recordCompletion_active s
    constructor
    · rw [ha]; exact le_max_left _ _
    · rw [ha, hc]
      apply max_le
      · exact le_trans h0 h1
      · omega

/-- Claim C3: in every state reachable from a freshly initialized
resource entry by any interleaving of `checkLimit` probes, admissions
(`recordRequest` only after a true `checkLimit`), and completions, the
in-flight count satisfies `0 ≤ activeRequests ≤ concurrentRequests`. -/
theorem c3 (requestsPerMinute concurrentRequests : Nat) (st : RLState)
    (h : RLReachable (rlInit requestsPerMinute concurrentRequests) st) :
    RLInv st := by
  induction h with
  | refl => exact ⟨le_refl 0, Int.natCast_nonneg _⟩
  | tail _ hstep ih => exact rlStep_preserves_inv hstep ih

/-- Witness for C3: admit at timestamp 3 (recorded at 5) then complete,
on a resource with ceilings 60/2. -/
theorem c3_witness :
    RLInv (recordCompletion (recordRequest 5 (checkLimit 3 (rlInit 60 2)).2)) := by
  apply c3 60 2
  exact Relation.ReflTransGen.tail
    (Relation.ReflTransGen.single (RLStep.admission 3 5 _ (by decide)))
    (RLStep.complete _)

/-! ## Claims C8 and C10: api-manager usage accounting -/

/-- Updating a key makes it present with the stored value. -/
theorem lookupKey_setKey_self {α : Type} (l : List (String × α)) (k : String) (v : α) :
    lookupKey (setKey l k v) k = some v := by
  induction l with
  | nil => simp [setKey, lookupKey]
  | cons p t ih =>
    obtain ⟨k', w⟩ := p
    by_cases h : k' = k
    · simp [setKey, lookupKey, h]
    · simp [setKey, lookupKey, h, ih]

/-- After `recordRequestAttempt`, the service's statistics entry exists
and its request count is the previous count plus one. -/
theorem recordRequestAttempt_entry (now : Int) (st : AMState) (apiId : String) :
    lookupKey (recordRequestAttempt now st apiId).usageStats apiId =
      some { (lookupKey st.usageStats apiId).getD freshStats with
        requestCount := ((lookupKey st.usageStats apiId).getD freshStats).requestCount + 1,
        lastRequest := some now } := by
  unfold recordRequestAttempt
  exact lookupKey_setKey_self _ _ _

/-- Counterexample to claim C8 as stated: for service `dictionary`, the
trace of one failing call followed by nine successes saves the
statistics on the error (first flag pair) and then on the tenth call —
which is only the ninth success (`quotaUsage = 9`), not the tenth, so
persistence on success is not keyed to every tenth successful call. -/
theorem c8_counterexample :
    (runCalls 0 "dictionary" c8Trace ⟨[], []⟩).2 =
      [(false, true), (true, false), (true, false), (true, false), (true, false),
       (true, false), (true, false), (true, false), (true, false), (true, true)] ∧
    lookupKey (runCalls 0 "dictionary" c8Trace ⟨[], []⟩).1.usageStats "dictionary" =
      some ⟨10, some 0, 1, some (0, ErrType.server), 9⟩ := by
  constructor
  · rfl
  · rfl

/-- Claim C8 as amended: through `makeRequest` on a known service id, a
request error always persists the statistics immediately, and a success
persists them exactly when the service's total request count (attempts,
counting failed calls too) becomes a multiple of 10. -/
theorem c8_amended_thm (now : Int) (st : AMState) (apiId : String)
    (hknown : hasKey API_CONFIG apiId = true) :
    (∀ e : Thrown, (makeRequest now st apiId (Except.error e)).2.2 = true) ∧
    (∀ d : Nat, ((makeRequest now st apiId (Except.ok d)).2.2 = true ↔
      (((lookupKey st.usageStats apiId).getD freshStats).requestCount + 1) % 10 = 0)) := by
  constructor
  · intro e
    unfold makeRequest
    rw [hknown]
    simp only [Bool.true_eq_false, if_false]
    unfold handleApiError
    rw [recordRequestAttempt_entry now st apiId]
  · intro d
    unfold makeRequest
    rw [hknown]
    simp only [Bool.true_eq_false, if_false]
    unfold recordRequestSuccess
    rw [recordRequestAttempt_entry now st apiId]
    simp

/-- Witness for the amended C8 on service `claude` from an empty state:
the error path saves, and the first success does not save (its attempt
count 1 is not a multiple of 10). -/
theorem c8_amended_witness :
    (makeRequest 0 ⟨[], []⟩ "claude" (Except.error thrownServer)).2.2 = true ∧
    ((makeRequest 0 ⟨[], []⟩ "claude" (Except.ok 5)).2.2 = true ↔ (0 + 1) % 10 = 0) := by
  obtain ⟨h1, h2⟩ := c8_amended_thm 0 ⟨[], []⟩ "claude" (by decide)
  exact ⟨h1 thrownServer, h2 5⟩

/-- Claim C10: on the `makeRequest` path for a known service id, a thunk
failure always rejects with the very error the thunk threw:
`recordRequestAttempt` created the statistics entry beforehand, so
`handleApiError` never takes its early-return branch (which would
resolve the call with `undefined`). -/
theorem c10 (now : Int) (st : AMState) (apiId : String) (e : Thrown)
    (hknown : hasKey API_CONFIG apiId = true) :
    (makeRequest now st apiId (Except.error e)).1 = MRResult.err e := by
  unfold makeRequest
  rw [hknown]
  simp only [Bool.true_eq_false, if_false]
  unfold handleApiError
  rw [recordRequestAttempt_entry now st apiId]
  simp

/-- Witness for C10 on service `dictionary` from an empty state with a
server-classified error. -/
theorem c10_witness :
    (makeRequest 0 ⟨[], []⟩ "dictionary" (Except.error thrownServer)).1 =
      MRResult.err thrownServer :=
  c10 0 ⟨[], []⟩ "dictionary" thrownServer (by decide)

/-! ## Claim C1: dependency activation deadlock (code bug) -/

/-- Claim C1 (refuting evaluation): activating `"A"`, which declares the
registered but inactive dependency `"B"`, never settles.  The worker
queues `"B"` (it stays in `queue`/`pendingIds`) but is itself blocked
awaiting `"B"`'s pending promise, which only it could resolve; no hook
ever runs, nothing becomes active, and `processingQueue` is never
cleared — where the claim demands that `"B"` activate, `"A"`'s hook run,
and `activateFeature("A")` resolve. -/
theorem c1_dependency_deadlock :
    (activateFeatureRun permEnvTriv 10 c1State "A").1 = CallOut.hung ∧
    (activateFeatureRun permEnvTriv 10 c1State "A").2.2 = [] ∧
    (activateFeatureRun permEnvTriv 10 c1State "A").2.1.active = [] ∧
    (activateFeatureRun permEnvTriv 10 c1State "A").2.1.queue = ["B"] ∧
    (activateFeatureRun permEnvTriv 10 c1State "A").2.1.pendingIds = ["A", "B"] ∧
    (activateFeatureRun permEnvTriv 10 c1State "A").2.1.processing = true := by
  refine ⟨rfl, rfl, rfl, rfl, rfl, rfl⟩

/-! ## Claim C7: conflict enforcement -/

/-- A list that does not contain `fid` is unchanged by filtering `fid`
out. -/
theorem filter_ne_of_not_contains (l : List String) (fid : String)
    (h : l.contains fid = false) : l.filter (fun i => i ≠ fid) = l := by
  induction l with
  | nil => rfl
  | cons a t ih =>
    simp only [List.contains_cons, Bool.or_eq_false_iff] at h
    obtain ⟨h1, h2⟩ := h
    have h1' : ¬(a = fid) := by
      intro heq
      rw [heq] at h1
      simp at h1
    rw [List.filter_cons, if_pos (by simp [h1']), ih h2]

/-- Appending `fid` makes a list contain it. -/
theorem contains_append_singleton (l : List String) (fid : String) :
    (l ++ [fid]).contains fid = true := by
  induction l with
  | nil => simp [List.contains_cons]
  | cons a t ih => simp [List.contains_cons, ih]

/-- When every declared dependency is registered and active, the
dependency loop passes without touching the state. -/
theorem runDeps_all_active (fid : String) (deps : List String) (s : FMState)
    (h : ∀ d ∈ deps, hasKey s.registry d = true ∧ hasKey s.active d = true) :
    runDeps fid deps s = (DepOutcome.passed, s) := by
  induction deps with
  | nil => rfl
  | cons d rest ih =>
    obtain ⟨h1, h2⟩ := h d (List.mem_cons_self d rest)
    unfold runDeps
    rw [h1, h2]
    simp only [Bool.true_eq_false, if_false, if_true]
    exact ih (fun d hd => h d (List.mem_cons_of_mem _ hd))

/-- With the dependency loop passing, a declared conflict that is active
makes `_activateFeature` throw the conflict error at once, leaving the
state unchanged and invoking no hook. -/
theorem activatePipeline_conflict (env : PermEnv) (s : FMState) (fid : String)
    (defn : FeatureDef) (cid : String)
    (hdeps : runDeps fid defn.dependencies s = (DepOutcome.passed, s))
    (hfind : defn.conflicts.find? (fun c => hasKey s.active c) = some cid) :
    activatePipeline env s fid defn = (PipeRes.threw (FmErr.conflictActive fid cid), s, []) := by
  unfold activatePipeline
  simp only [hdeps, hfind]

/-- Running the worker on a queue holding exactly one pending id whose
pipeline throws without touching the state: the worker rejects it,
removes the pending entry, clears the flag and stops. -/
theorem processQueueLoop_single_threw (env : PermEnv) (f : Nat)
    (reg : List (String × FeatureDef)) (act : List (String × FeatureInstance))
    (pend : List String) (fid : String) (defn : FeatureDef) (e : FmErr)
    (hreg : lookupKey reg fid = some defn)
    (hpend : pend.contains fid = false)
    (hpipe : activatePipeline env ⟨reg, act, pend ++ [fid], [], true⟩ fid defn =
      (PipeRes.threw e, ⟨reg, act, pend ++ [fid], [], true⟩, [])) :
    processQueueLoop env (f + 2) ⟨reg, act, pend ++ [fid], [fid], true⟩ =
      ⟨false, false, ⟨reg, act, pend, [], false⟩, [], [(fid, CallOut.rejected e)]⟩ := by
  have hc := contains_append_singleton pend fid
  have hfilter : (pend ++ [fid]).filter (fun i => i ≠ fid) = pend := by
    rw [List.filter_append, filter_ne_of_not_contains pend fid hpend]
    simp
  conv_lhs => unfold processQueueLoop
  simp only [hc, hreg, hpipe, hfilter]
  conv_lhs => unfold processQueueLoop
  simp

/-- The synchronous prefix of a fresh `activateFeature` call (registered,
inactive, not pending, no worker running): it creates the pending entry,
queues the id and hands over to the worker. -/
theorem activateFeatureRun_fresh (env : PermEnv) (fuel : Nat)
    (reg : List (String × FeatureDef)) (act : List (String × FeatureInstance))
    (pend q : List String) (fid : String) (defn : FeatureDef)
    (hreg : lookupKey reg fid = some defn)
    (hact : lookupKey act fid = none)
    (hpend : pend.contains fid = false) :
    activateFeatureRun env fuel ⟨reg, act, pend, q, false⟩ fid =
      (let r := processQueueLoop env fuel ⟨reg, act, pend ++ [fid], q ++ [fid], true⟩
       ((if r.fuelOut then CallOut.fuelOut
         else match lookupKey r.resolved fid with
         | some o => o
         | none => CallOut.hung), r.state, r.events)) := by
  unfold activateFeatureRun processActivationQueue
  have hmem : ¬ fid ∈ pend := by simpa using hpend
  simp [hreg, hact, hmem]

/-- Claim C7 as amended: from a quiescent state, for a registered
inactive feature `fid` all of whose declared dependencies are registered
and active, if some declared conflict is active then `activateFeature`
rejects with the conflict error naming the first active conflict, no
hook runs (no events at all), and the state is restored exactly — in
particular the conflicting feature stays active with its instance
untouched. -/
theorem c7_amended_thm (env : PermEnv) (fuel : Nat) (s : FMState) (fid : String)
    (defn : FeatureDef)
    (hreg : lookupKey s.registry fid = some defn)
    (hact : lookupKey s.active fid = none)
    (hpend : s.pendingIds.contains fid = false)
    (hq : s.queue = [])
    (hproc : s.processing = false)
    (hdeps : ∀ d ∈ defn.dependencies, hasKey s.registry d = true ∧ hasKey s.active d = true)
    (hconf : ∃ c ∈ defn.conflicts, hasKey s.active c = true)
    (hfuel : 2 ≤ fuel) :
    ∃ cid, defn.conflicts.find? (fun c => hasKey s.active c) = some cid ∧
      cid ∈ defn.conflicts ∧ hasKey s.active cid = true ∧
      activateFeatureRun env fuel s fid =
        (CallOut.rejected (FmErr.conflictActive fid cid), s, []) := by
  obtain ⟨c0, hc0, hc0a⟩ := hconf
  obtain ⟨cid, hfind⟩ : ∃ cid, defn.conflicts.find? (fun c => hasKey s.active c) = some cid := by
    cases hf : defn.conflicts.find? (fun c => hasKey s.active c) with
    | none =>
      have := List.find?_eq_none.mp hf c0 hc0
      rw [hc0a] at this
      exact absurd rfl this
    | some cid => exact ⟨cid, rfl⟩
  have hcidmem : cid ∈ defn.conflicts := List.mem_of_find?_eq_some hfind
  have hcidact : hasKey s.active cid = true := List.find?_some hfind
  refine ⟨cid, hfind, hcidmem, hcidact, ?_⟩
  obtain ⟨f, rfl⟩ : ∃ f, fuel = f + 2 := ⟨fuel - 2, by omega⟩
  obtain ⟨reg, act, pend, q, proc⟩ := s
  replace hreg : lookupKey reg fid = some defn := hreg
  replace hact : lookupKey act fid = none := hact
  replace hpend : pend.contains fid = false := hpend
  replace hq : q = [] := hq
  replace hproc : proc = false := hproc
  subst hq
  subst hproc
  have hpipe : activatePipeline env ⟨reg, act, pend ++ [fid], [], true⟩ fid defn =
      (PipeRes.threw (FmErr.conflictActive fid cid), ⟨reg, act, pend ++ [fid], [], true⟩, []) := by
    apply activatePipeline_conflict
    · exact runDeps_all_active fid defn.dependencies _ (fun d hd => hdeps d hd)
    · exact hfind
  rw [activateFeatureRun_fresh env (f + 2) reg act pend [] fid defn hreg hact hpend]
  simp only [List.nil_append]
  rw [processQueueLoop_single_threw env f reg act pend fid defn
    (FmErr.conflictActive fid cid) hreg hpend hpipe]
  simp [lookupKey]

/-- Counterexample to claim C7 as stated: `"F"` declares the active
conflict `"C"` but also the registered inactive dependency `"B"`;
instead of rejecting with a conflict error, `activateFeature("F")` never
settles (the dependency deadlock of C1 strikes before the conflict
check), no hook runs, and `"C"` stays active untouched. -/
theorem c7_counterexample :
    (activateFeatureRun permEnvTriv 10 c7DepState "F").1 = CallOut.hung ∧
    (activateFeatureRun permEnvTriv 10 c7DepState "F").2.2 = [] ∧
    lookupKey (activateFeatureRun permEnvTriv 10 c7DepState "F").2.1.active "C" =
      some instLeafC :=
  ⟨rfl, rfl, rfl⟩

/-- Witness for the amended C7 at the concrete conflict scenario: `"F"`
(no dependencies, conflict `"C"` active) is rejected with the conflict
error and the state is exactly restored. -/
theorem c7_witness :
    activateFeatureRun permEnvTriv 2 c7State "F" =
      (CallOut.rejected (FmErr.conflictActive "F" "C"), c7State, []) := by
  obtain ⟨cid, hfind, _, _, hrun⟩ := c7_amended_thm permEnvTriv 2 c7State "F" defConflF
    rfl rfl rfl rfl rfl
    (by intro d hd; simp [defConflF] at hd)
    ⟨"C", by simp [defConflF], rfl⟩
    (le_refl 2)
  have hcid : cid = "C" := by
    have hC : defConflF.conflicts.find? (fun c => hasKey c7State.active c) = some "C" := rfl
    rw [hC] at hfind
    exact (Option.some.inj hfind).symm
  rw [hcid] at hrun
  exact hrun

/-! ## Claim C6: concurrent activation collapse -/

/-- With the dependency loop passing, the pipeline never hangs. -/
theorem activatePipeline_no_hang (env : PermEnv) (s : FMState) (fid : String)
    (defn : FeatureDef)
    (hdeps : runDeps fid defn.dependencies s = (DepOutcome.passed, s)) :
    (activatePipeline env s fid defn).1 ≠ PipeRes.hung := by
  unfold activatePipeline
  simp only [hdeps]
  cases hfind : defn.conflicts.find? (fun c => hasKey s.active c) with
  | some cid => simp
  | none => split_ifs <;> simp

/-- A pipeline run invokes the activation hook at most once. -/
theorem activatePipeline_count_le_one (env : PermEnv) (s : FMState) (fid : String)
    (defn : FeatureDef) :
    hookCount fid (activatePipeline env s fid defn).2.2 ≤ 1 := by
  unfold activatePipeline hookCount
  rcases hd : runDeps fid defn.dependencies s with ⟨dout, s'⟩
  cases dout with
  | depThrew e => simp
  | depHung => simp
  | passed =>
    cases hfind : defn.conflicts.find? (fun c => hasKey s'.active c) with
    | some cid => simp only [hfind]; simp
    | none =>
      simp only [hfind]
      split_ifs <;> simp [List.count_cons]

/-- With the dependency loop passing, a present hook, and the pre-hook
checks passing, the pipeline invokes the hook exactly once. -/
theorem activatePipeline_reaches_hook (env : PermEnv) (s : FMState) (fid : String)
    (defn : FeatureDef)
    (hdeps : runDeps fid defn.dependencies s = (DepOutcome.passed, s))
    (hhook : defn.hasOnActivate = true)
    (hpass : preHookChecksPass env s.active defn = true) :
    hookCount fid (activatePipeline env s fid defn).2.2 = 1 := by
  unfold preHookChecksPass at hpass
  simp only [Bool.and_eq_true] at hpass
  obtain ⟨⟨⟨hconf, hp1⟩, hp2⟩, hp3⟩ := hpass
  unfold activatePipeline hookCount
  simp only [hdeps]
  cases hfind : defn.conflicts.find? (fun c => hasKey s.active c) with
  | some cid => rw [hfind] at hconf; simp at hconf
  | none =>
    have hc1 : ¬(defn.permissions ≠ [] ∧
        (defn.permissions.all fun p => env.granted.contains p) = false) := by
      rcases Bool.or_eq_true_iff.mp hp1 with h | h
      · intro hcon; exact hcon.1 (List.isEmpty_iff.mp h)
      · intro hcon; rw [h] at hcon; exact absurd hcon.2 (by simp)
    have hc2 : ¬(defn.optionalPermissions ≠ [] ∧
        (defn.optionalPermissions.all fun p => env.granted.contains p) = false ∧
        env.requestGranted = false) := by
      rcases Bool.or_eq_true_iff.mp hp2 with h | h
      · rcases Bool.or_eq_true_iff.mp h with h' | h'
        · intro hcon; exact hcon.1 (List.isEmpty_iff.mp h')
        · intro hcon; rw [h'] at hcon; exact absurd hcon.2.1 (by simp)
      · intro hcon; rw [h] at hcon; exact absurd hcon.2.2 (by simp)
    have hc3 : ¬(defn.hostPermissions ≠ [] ∧
        (defn.hostPermissions.all fun p => env.granted.contains p) = false ∧
        env.requestGranted = false) := by
      rcases Bool.or_eq_true_iff.mp hp3 with h | h
      · rcases Bool.or_eq_true_iff.mp h with h' | h'
        · intro hcon; exact hcon.1 (List.isEmpty_iff.mp h')
        · intro hcon; rw [h'] at hcon; exact absurd hcon.2.1 (by simp)
      · intro hcon; rw [h] at hcon; exact absurd hcon.2.2 (by simp)
    simp only [hfind]
    rw [if_neg hc1, if_neg hc2, if_neg hc3, if_pos hhook]
    cases hok : defn.onActivateOk with
    | true => simp [List.count_cons]
    | false => simp [List.count_cons]

/-- With the dependency loop passing, a throwing pipeline leaves the
state untouched. -/
theorem activatePipeline_threw_state (env : PermEnv) (s : FMState) (fid : String)
    (defn : FeatureDef) (e : FmErr) (s2 : FMState) (ev : List FmEvent)
    (hdeps : runDeps fid defn.dependencies s = (DepOutcome.passed, s))
    (hpipe : activatePipeline env s fid defn = (PipeRes.threw e, s2, ev)) :
    s2 = s := by
  unfold activatePipeline at hpipe
  simp only [hdeps] at hpipe
  cases hfind : defn.conflicts.find? (fun c => hasKey s.active c) with
  | some cid =>
    simp only [hfind, Prod.mk.injEq] at hpipe
    exact hpipe.2.1.symm
  | none =>
    simp only [hfind] at hpipe
    split_ifs at hpipe <;>
      first
      | (simp only [Prod.mk.injEq] at hpipe; exact hpipe.2.1.symm)
      | simp at hpipe

/-- With the dependency loop passing, a successful pipeline installs the
instance and changes nothing else. -/
theorem activatePipeline_ok_state (env : PermEnv) (s : FMState) (fid : String)
    (defn : FeatureDef) (inst : FeatureInstance) (s2 : FMState) (ev : List FmEvent)
    (hdeps : runDeps fid defn.dependencies s = (DepOutcome.passed, s))
    (hpipe : activatePipeline env s fid defn = (PipeRes.ok inst, s2, ev)) :
    s2 = { s with active := setKey s.active fid inst } := by
  unfold activatePipeline at hpipe
  simp only [hdeps] at hpipe
  cases hfind : defn.conflicts.find? (fun c => hasKey s.active c) with
  | some cid => simp only [hfind] at hpipe; simp at hpipe
  | none =>
    simp only [hfind] at hpipe
    split_ifs at hpipe <;>
      first
      | (simp only [Prod.mk.injEq, PipeRes.ok.injEq] at hpipe
         obtain ⟨hinst, hs2, hev⟩ := hpipe
         rw [← hs2, hinst])
      | simp at hpipe

/-- Two interleaved calls when the single pipeline run throws without
touching the state: both callers are rejected with the same error by the
worker's continuation. -/
theorem twoInterleaved_of_pipeThrew (env : PermEnv) (reg : List (String × FeatureDef))
    (act : List (String × FeatureInstance)) (fid : String) (arrival : Arrival)
    (defn : FeatureDef) (e : FmErr) (ev : List FmEvent)
    (hreg : lookupKey reg fid = some defn)
    (hact : lookupKey act fid = none)
    (hpipe : activatePipeline env ⟨reg, act, [fid], [], true⟩ fid defn =
      (PipeRes.threw e, ⟨reg, act, [fid], [], true⟩, ev)) :
    twoInterleavedActivate env reg act fid arrival =
      (CallOut.rejected e, CallOut.rejected e, ⟨reg, act, [], [], false⟩, ev) := by
  have hfilter : ([fid].filter (fun i => i ≠ fid)) = ([] : List String) := by simp
  unfold twoInterleavedActivate
  simp only [hreg, hact, hpipe, hfilter]

/-- Two interleaved calls when the single pipeline run succeeds: both
callers observe the same installed instance (the second via the pending
entry or via the already-active check, depending on where it lands). -/
theorem twoInterleaved_of_pipeOk (env : PermEnv) (reg : List (String × FeatureDef))
    (act : List (String × FeatureInstance)) (fid : String) (arrival : Arrival)
    (defn : FeatureDef) (inst : FeatureInstance) (s2 : FMState) (ev : List FmEvent)
    (hreg : lookupKey reg fid = some defn)
    (hact : lookupKey act fid = none)
    (hpipe : activatePipeline env ⟨reg, act, [fid], [], true⟩ fid defn =
      (PipeRes.ok inst, s2, ev))
    (hlook : lookupKey s2.active fid = some inst) :
    twoInterleavedActivate env reg act fid arrival =
      (CallOut.resolvedInstance inst, CallOut.resolvedInstance inst,
       { s2 with
         pendingIds := s2.pendingIds.filter (fun i => i ≠ fid),
         processing := false },
       ev) := by
  unfold twoInterleavedActivate
  simp only [hreg, hact, hpipe]
  cases arrival with
  | early => rfl
  | late => simp only [hlook]

/-- Counterexample to claim C6 as stated, at two concrete inputs.
First: `"A"` declares the registered inactive dependency `"B"`; two
interleaved `activateFeature("A")` calls both hang (neither settles) and
the hook runs zero times, not once.  Second: `"F"` declares the active
conflict `"C"`; both interleaved calls reject, and the hook again runs
zero times where the claim demands exactly one invocation. -/
theorem c6_counterexample :
    (twoInterleavedActivate permEnvTriv [("A", defDepA), ("B", defLeafB)] [] "A"
      Arrival.early).1 = CallOut.hung ∧
    (twoInterleavedActivate permEnvTriv [("A", defDepA), ("B", defLeafB)] [] "A"
      Arrival.early).2.1 = CallOut.hung ∧
    hookCount "A" (twoInterleavedActivate permEnvTriv [("A", defDepA), ("B", defLeafB)]
      [] "A" Arrival.early).2.2.2 = 0 ∧
    (twoInterleavedActivate permEnvTriv [("F", defConflF), ("C", defLeafC)]
      [("C", instLeafC)] "F" Arrival.early).1 =
      CallOut.rejected (FmErr.conflictActive "F" "C") ∧
    (twoInterleavedActivate permEnvTriv [("F", defConflF), ("C", defLeafC)]
      [("C", instLeafC)] "F" Arrival.early).2.1 =
      CallOut.rejected (FmErr.conflictActive "F" "C") ∧
    hookCount "F" (twoInterleavedActivate permEnvTriv [("F", defConflF), ("C", defLeafC)]
      [("C", instLeafC)] "F" Arrival.early).2.2.2 = 0 :=
  ⟨rfl, rfl, rfl, rfl, rfl, rfl⟩

/-- Claim C6 as amended: for a registered, not-yet-active feature all of
whose declared dependencies are registered and already active, two
interleaved `activateFeature` calls from a quiescent manager settle with
the same outcome (same instance or same error), run the activation
pipeline only once — the hook fires at most once, and exactly once when
the definition has a hook and the pre-hook checks pass — and leave no
pending entry behind (at most one existed throughout: the single entry
call 1 created and call 2 joined). -/
theorem c6_amended_thm (env : PermEnv) (reg : List (String × FeatureDef))
    (act : List (String × FeatureInstance)) (fid : String) (arrival : Arrival)
    (defn : FeatureDef)
    (hreg : lookupKey reg fid = some defn)
    (hact : lookupKey act fid = none)
    (hdeps : ∀ d ∈ defn.dependencies, hasKey reg d = true ∧ hasKey act d = true) :
    (twoInterleavedActivate env reg act fid arrival).1 =
      (twoInterleavedActivate env reg act fid arrival).2.1 ∧
    ((∃ i, (twoInterleavedActivate env reg act fid arrival).1 =
        CallOut.resolvedInstance i) ∨
     (∃ e, (twoInterleavedActivate env reg act fid arrival).1 = CallOut.rejected e)) ∧
    hookCount fid (twoInterleavedActivate env reg act fid arrival).2.2.2 ≤ 1 ∧
    (defn.hasOnActivate = true → preHookChecksPass env act defn = true →
      hookCount fid (twoInterleavedActivate env reg act fid arrival).2.2.2 = 1) ∧
    (twoInterleavedActivate env reg act fid arrival).2.2.1.pendingIds = [] := by
  have hdeps1 : runDeps fid defn.dependencies ⟨reg, act, [fid], [], true⟩ =
      (DepOutcome.passed, ⟨reg, act, [fid], [], true⟩) :=
    runDeps_all_active fid defn.dependencies _ (fun d hd => hdeps d hd)
  have hle := activatePipeline_count_le_one env ⟨reg, act, [fid], [], true⟩ fid defn
  rcases hpipe : activatePipeline env ⟨reg, act, [fid], [], true⟩ fid defn with ⟨pr, s2, ev⟩
  rw [hpipe] at hle
  cases pr with
  | hung =>
    have := activatePipeline_no_hang env ⟨reg, act, [fid], [], true⟩ fid defn hdeps1
    rw [hpipe] at this
    exact absurd rfl this
  | threw e =>
    have hs2 := activatePipeline_threw_state env _ fid defn e s2 ev hdeps1 hpipe
    subst hs2
    rw [twoInterleaved_of_pipeThrew env reg act fid arrival defn e ev hreg hact hpipe]
    refine ⟨rfl, Or.inr ⟨e, rfl⟩, hle, ?_, rfl⟩
    intro hhook hpass
    have := activatePipeline_reaches_hook env ⟨reg, act, [fid], [], true⟩ fid defn
      hdeps1 hhook hpass
    rw [hpipe] at this
    exact this
  | ok inst =>
    have hs2 := activatePipeline_ok_state env _ fid defn inst s2 ev hdeps1 hpipe
    have hlook : lookupKey s2.active fid = some inst := by
      rw [hs2]
      exact lookupKey_setKey_self act fid inst
    rw [twoInterleaved_of_pipeOk env reg act fid arrival defn inst s2 ev hreg hact
      hpipe hlook]
    refine ⟨rfl, Or.inl ⟨inst, rfl⟩, hle, ?_, ?_⟩
    · intro hhook hpass
      have := activatePipeline_reaches_hook env ⟨reg, act, [fid], [], true⟩ fid defn
        hdeps1 hhook hpass
      rw [hpipe] at this
      exact this
    · rw [hs2]
      simp

/-- Witness for the amended C6: feature `"A"` (hook present) with its
dependency `"B"` already active; two interleaved calls at the late
arrival point settle identically and fire the hook exactly once. -/
theorem c6_witness :
    (twoInterleavedActivate permEnvTriv [("A", defDepA), ("B", defLeafB)]
      [("B", instLeafB)] "A" Arrival.late).1 =
      (twoInterleavedActivate permEnvTriv [("A", defDepA), ("B", defLeafB)]
        [("B", instLeafB)] "A" Arrival.late).2.1 ∧
    hookCount "A" (twoInterleavedActivate permEnvTriv [("A", defDepA), ("B", defLeafB)]
      [("B", instLeafB)] "A" Arrival.late).2.2.2 = 1 := by
  obtain ⟨h1, _, _, h4, _⟩ := c6_amended_thm permEnvTriv
    [("A", defDepA), ("B", defLeafB)] [("B", instLeafB)] "A" Arrival.late defDepA
    rfl rfl
    (by
      intro d hd
      simp only [defDepA, List.mem_singleton] at hd
      subst hd
      exact ⟨rfl, rfl⟩)
  exact ⟨h1, h4 rfl rfl⟩

/-! ## Claim C9: deactivation cascade -/

/-- Erasing a key removes it. -/
theorem lookupKey_eraseKey_self {α : Type} (l : List (String × α)) (k : String) :
    lookupKey (eraseKey l k) k = none := by
  induction l with
  | nil => rfl
  | cons p t ih =>
    obtain ⟨k', v⟩ := p
    unfold eraseKey at ih ⊢
    rw [List.filter_cons]
    by_cases h : k' = k
    · rw [if_neg (by simp [h])]
      exact ih
    · rw [if_pos (by simp [h])]
      simp only [lookupKey]
      rw [if_neg h]
      exact ih

/-- Erasing one key leaves the others untouched. -/
theorem lookupKey_eraseKey_ne {α : Type} (l : List (String × α)) (k k' : String)
    (hne : k' ≠ k) :
    lookupKey (eraseKey l k) k' = lookupKey l k' := by
  induction l with
  | nil => rfl
  | cons p t ih =>
    obtain ⟨a, v⟩ := p
    unfold eraseKey at ih ⊢
    rw [List.filter_cons]
    by_cases h : a = k
    · rw [if_neg (by simp [h])]
      rw [ih]
      simp only [lookupKey]
      rw [if_neg (by rw [h]; exact fun hc => hne hc.symm)]
    · rw [if_pos (by simp [h])]
      simp only [lookupKey]
      by_cases h2 : a = k'
      · rw [if_pos h2, if_pos h2]
      · rw [if_neg h2, if_neg h2]
        exact ih

/-- A bound key occurs in the key projection of the list. -/
theorem mem_map_fst_of_lookupKey {α : Type} (l : List (String × α)) (k : String)
    (v : α) (h : lookupKey l k = some v) : k ∈ l.map Prod.fst := by
  induction l with
  | nil => exact absurd h (by simp [lookupKey])
  | cons p t ih =>
    obtain ⟨a, w⟩ := p
    simp only [lookupKey] at h
    by_cases h2 : a = k
    · simp [h2]
    · rw [if_neg h2] at h
      simp [ih h]

/-- The cascade loop only ever removes active entries: anything bound
afterwards was bound before (parameterised by the same property of the
recursive deactivation). -/
theorem cascadeDependents_submap
    (deact : FMState → String → Option Bool × FMState × List FmEvent)
    (hd : ∀ s a k v, lookupKey (deact s a).2.1.active k = some v →
      lookupKey s.active k = some v)
    (fid : String) :
    ∀ (l : List String) (s : FMState) (k : String) (v : FeatureInstance),
      lookupKey (cascadeDependents deact fid l s).2.1.active k = some v →
      lookupKey s.active k = some v := by
  intro l
  induction l with
  | nil => intro s k v h; exact h
  | cons aid rest ih =>
    intro s k v h
    unfold cascadeDependents at h
    by_cases h1 : aid = fid
    · rw [if_pos h1] at h
      exact ih s k v h
    · rw [if_neg h1] at h
      cases h2 : lookupKey s.active aid with
      | none =>
        simp only [h2] at h
        exact ih s k v h
      | some inst =>
        simp only [h2] at h
        by_cases h3 : inst.defn.dependencies.contains fid = true
        · rw [if_pos h3] at h
          rcases h4 : deact s aid with ⟨r1, sd, evd⟩
          simp only [h4] at h
          cases r1 with
          | none =>
            exact hd s aid k v (by rw [h4]; exact h)
          | some b =>
            rcases h5 : cascadeDependents deact fid rest sd with ⟨r2, sc, evc⟩
            simp only [h5] at h
            have hk : lookupKey sd.active k = some v := ih sd k v (by rw [h5]; exact h)
            exact hd s aid k v (by rw [h4]; exact hk)
        · rw [if_neg h3] at h
          exact ih s k v h

/-- `deactivateFeature` only ever removes active entries. -/
theorem deactivateFeature_submap :
    ∀ (fuel : Nat) (s : FMState) (fid k : String) (v : FeatureInstance),
      lookupKey (deactivateFeature fuel s fid).2.1.active k = some v →
      lookupKey s.active k = some v := by
  intro fuel
  induction fuel with
  | zero => intro s fid k v h; exact h
  | succ fuel ih =>
    intro s fid k v h
    unfold deactivateFeature at h
    cases h1 : lookupKey s.active fid with
    | none =>
      rw [h1] at h
      exact h
    | some inst =>
      rw [h1] at h
      rcases h2 : cascadeDependents (deactivateFeature fuel) fid (s.active.map Prod.fst) s
        with ⟨r, s1, ev⟩
      rw [h2] at h
      cases r with
      | none =>
        exact cascadeDependents_submap _ (fun s a k v hh => ih s a k v hh) fid _ s k v
          (by rw [h2]; exact h)
      | some b =>
        have h3 : lookupKey s1.active k = some v := by
          by_cases hk : k = fid
          · subst hk
            rw [lookupKey_eraseKey_self] at h
            exact absurd h (by simp)
          · rw [lookupKey_eraseKey_ne s1.active fid k hk] at h
            exact h
        exact cascadeDependents_submap _ (fun s a k v hh => ih s a k v hh) fid _ s k v
          (by rw [h2]; exact h3)

/-- When the cascade loop removes an active feature, the trace records
its removal, and its deactivation hook invocation when it has one
(parameterised by the same property, and the submap property, of the
recursive deactivation). -/
theorem cascadeDependents_removed_log
    (deact : FMState → String → Option Bool × FMState × List FmEvent)
    (hsub : ∀ s a k v, lookupKey (deact s a).2.1.active k = some v →
      lookupKey s.active k = some v)
    (hlog : ∀ s a k v, lookupKey s.active k = some v →
      lookupKey (deact s a).2.1.active k = none →
      FmEvent.removed k ∈ (deact s a).2.2 ∧
        (v.defn.hasOnDeactivate = true → FmEvent.deactivateHook k ∈ (deact s a).2.2))
    (fid : String) :
    ∀ (l : List String) (s : FMState) (k : String) (v : FeatureInstance),
      lookupKey s.active k = some v →
      lookupKey (cascadeDependents deact fid l s).2.1.active k = none →
      FmEvent.removed k ∈ (cascadeDependents deact fid l s).2.2 ∧
        (v.defn.hasOnDeactivate = true →
          FmEvent.deactivateHook k ∈ (cascadeDependents deact fid l s).2.2) := by
  intro l
  induction l with
  | nil =>
    intro s k v hsome hnone
    have hnone' : lookupKey s.active k = none := hnone
    rw [hsome] at hnone'
    exact absurd hnone' (by simp)
  | cons aid rest ih =>
    intro s k v hsome hnone
    unfold cascadeDependents at hnone ⊢
    by_cases h1 : aid = fid
    · rw [if_pos h1] at hnone ⊢
      exact ih s k v hsome hnone
    · rw [if_neg h1] at hnone ⊢
      cases h2 : lookupKey s.active aid with
      | none =>
        simp only [h2] at hnone ⊢
        exact ih s k v hsome hnone
      | some inst =>
        simp only [h2] at hnone ⊢
        by_cases h3 : inst.defn.dependencies.contains fid = true
        · rw [if_pos h3] at hnone ⊢
          rcases h4 : deact s aid with ⟨r1, sd, evd⟩
          simp only [h4] at hnone ⊢
          cases r1 with
          | none =>
            have := hlog s aid k v hsome (by rw [h4]; exact hnone)
            rw [h4] at this
            exact this
          | some b =>
            rcases h5 : cascadeDependents deact fid rest sd with ⟨r2, sc, evc⟩
            simp only [h5] at hnone ⊢
            cases hmid : lookupKey sd.active k with
            | none =>
              have := hlog s aid k v hsome (by rw [h4]; exact hmid)
              rw [h4] at this
              exact ⟨List.mem_append_left _ this.1,
                fun hh => List.mem_append_left _ (this.2 hh)⟩
            | some v' =>
              have hv' : v' = v := by
                have := hsub s aid k v' (by rw [h4]; exact hmid)
                rw [hsome] at this
                exact (Option.some.inj this).symm
              subst hv'
              have := ih sd k v' hmid (by rw [h5]; exact hnone)
              rw [h5] at this
              exact ⟨List.mem_append_right _ this.1,
                fun hh => List.mem_append_right _ (this.2 hh)⟩
        · rw [if_neg h3] at hnone ⊢
          exact ih s k v hsome hnone

/-- When `deactivateFeature` removes an active feature, its removal is
recorded in the trace, and its hook invocation when it declares one. -/
theorem deactivateFeature_removed_log :
    ∀ (fuel : Nat) (s : FMState) (fid k : String) (v : FeatureInstance),
      lookupKey s.active k = some v →
      lookupKey (deactivateFeature fuel s fid).2.1.active k = none →
      FmEvent.removed k ∈ (deactivateFeature fuel s fid).2.2 ∧
        (v.defn.hasOnDeactivate = true →
          FmEvent.deactivateHook k ∈ (deactivateFeature fuel s fid).2.2) := by
  intro fuel
  induction fuel with
  | zero =>
    intro s fid k v hsome hnone
    have hnone' : lookupKey s.active k = none := hnone
    rw [hsome] at hnone'
    exact absurd hnone' (by simp)
  | succ fuel ih =>
    intro s fid k v hsome hnone
    unfold deactivateFeature at hnone ⊢
    cases h1 : lookupKey s.active fid with
    | none =>
      simp only [h1] at hnone ⊢
      rw [hsome] at hnone
      exact absurd hnone (by simp)
    | some inst =>
      simp only [h1] at hnone ⊢
      rcases h2 : cascadeDependents (deactivateFeature fuel) fid (s.active.map Prod.fst) s
        with ⟨r, s1, ev⟩
      simp only [h2] at hnone ⊢
      cases r with
      | none =>
        have := cascadeDependents_removed_log _
          (fun s a k v hh => deactivateFeature_submap fuel s a k v hh)
          (fun s a k v h1 h2 => ih s a k v h1 h2) fid
          (s.active.map Prod.fst) s k v hsome (by rw [h2]; exact hnone)
        rw [h2] at this
        exact this
      | some b =>
        by_cases hk : k = fid
        · subst hk
          have hv : v = inst := by
            rw [hsome] at h1
            exact Option.some.inj h1
          subst hv
          constructor
          · exact List.mem_append_right _ (by simp)
          · intro hh
            apply List.mem_append_left
            apply List.mem_append_right
            rw [hh]
            simp
        · rw [lookupKey_eraseKey_ne s1.active fid k hk] at hnone
          have := cascadeDependents_removed_log _
            (fun s a k v hh => deactivateFeature_submap fuel s a k v hh)
            (fun s a k v h1 h2 => ih s a k v h1 h2) fid
            (s.active.map Prod.fst) s k v hsome (by rw [h2]; exact hnone)
          rw [h2] at this
          exact ⟨List.mem_append_left _ (List.mem_append_left _ this.1),
            fun hh => List.mem_append_left _ (List.mem_append_left _ (this.2 hh))⟩

/-- A completed `deactivateFeature` run leaves its target inactive. -/
theorem deactivateFeature_complete_gone (fuel : Nat) (s : FMState) (fid : String)
    (r : Bool) (s' : FMState) (ev : List FmEvent)
    (hrun : deactivateFeature fuel s fid = (some r, s', ev)) :
    lookupKey s'.active fid = none := by
  cases fuel with
  | zero => exact absurd (congrArg (fun p => p.1) hrun) (by simp [deactivateFeature])
  | succ fuel =>
    unfold deactivateFeature at hrun
    cases h1 : lookupKey s.active fid with
    | none =>
      rw [h1] at hrun
      simp only [Prod.mk.injEq] at hrun
      rw [← hrun.2.1]
      exact h1
    | some inst =>
      rw [h1] at hrun
      rcases h2 : cascadeDependents (deactivateFeature fuel) fid (s.active.map Prod.fst) s
        with ⟨rc, s1, evc⟩
      rw [h2] at hrun
      cases rc with
      | none => exact absurd (congrArg (fun p => p.1) hrun) (by simp)
      | some b =>
        simp only [Prod.mk.injEq] at hrun
        rw [← hrun.2.1]
        exact lookupKey_eraseKey_self s1.active fid

/-- The heart of the cascade: if `A` is active, distinct from the
feature being deactivated, and lists it as a dependency, then a
completed cascade pass over a snapshot containing `A` removes `A`,
records the removal (and `A`'s hook invocation when declared), and
leaves `A` inactive. -/
theorem cascadeDependents_handles
    (deact : FMState → String → Option Bool × FMState × List FmEvent)
    (hsub : ∀ s a k v, lookupKey (deact s a).2.1.active k = some v →
      lookupKey s.active k = some v)
    (hgone : ∀ s a r s' ev, deact s a = (some r, s', ev) → lookupKey s'.active a = none)
    (hlog : ∀ s a k v, lookupKey s.active k = some v →
      lookupKey (deact s a).2.1.active k = none →
      FmEvent.removed k ∈ (deact s a).2.2 ∧
        (v.defn.hasOnDeactivate = true → FmEvent.deactivateHook k ∈ (deact s a).2.2))
    (fid A : String) (instA : FeatureInstance)
    (hAfid : A ≠ fid) (hdep : instA.defn.dependencies.contains fid = true) :
    ∀ (l : List String) (s : FMState) (u : Unit) (s' : FMState) (ev : List FmEvent),
      cascadeDependents deact fid l s = (some u, s', ev) →
      A ∈ l → lookupKey s.active A = some instA →
      FmEvent.removed A ∈ ev ∧ lookupKey s'.active A = none ∧
        (instA.defn.hasOnDeactivate = true → FmEvent.deactivateHook A ∈ ev) := by
  intro l
  induction l with
  | nil =>
    intro s u s' ev hrun hmem hA
    exact absurd hmem (by simp)
  | cons aid rest ih =>
    intro s u s' ev hrun hmem hA
    unfold cascadeDependents at hrun
    by_cases h1 : aid = fid
    · rw [if_pos h1] at hrun
      have hArest : A ∈ rest := by
        cases List.mem_cons.mp hmem with
        | inl h => exact absurd (h.trans h1) hAfid
        | inr h => exact h
      exact ih s u s' ev hrun hArest hA
    · rw [if_neg h1] at hrun
      cases h2 : lookupKey s.active aid with
      | none =>
        simp only [h2] at hrun
        have hArest : A ∈ rest := by
          cases List.mem_cons.mp hmem with
          | inl h => rw [← h] at h2; rw [hA] at h2; exact absurd h2 (by simp)
          | inr h => exact h
        exact ih s u s' ev hrun hArest hA
      | some inst =>
        simp only [h2] at hrun
        by_cases h3 : inst.defn.dependencies.contains fid = true
        · rw [if_pos h3] at hrun
          rcases h4 : deact s aid with ⟨r1, sd, evd⟩
          simp only [h4] at hrun
          cases r1 with
          | none =>
            simp only [Prod.mk.injEq] at hrun
            exact absurd hrun.1 (by simp)
          | some b =>
            rcases h5 : cascadeDependents deact fid rest sd with ⟨r2, sc, evc⟩
            simp only [h5] at hrun
            simp only [Prod.mk.injEq] at hrun
            obtain ⟨hr2, hsc, hevv⟩ := hrun
            rw [← hsc, ← hevv]
            have hgone4 : lookupKey sd.active aid = none := hgone s aid b sd evd h4
            have hnoneOf : lookupKey sd.active A = none → lookupKey sc.active A = none := by
              intro hmidnone
              cases hfin : lookupKey sc.active A with
              | none => rfl
              | some w =>
                have := cascadeDependents_submap deact hsub fid rest sd A w
                  (by rw [h5]; exact hfin)
                rw [hmidnone] at this
                exact absurd this (by simp)
            by_cases hAa : A = aid
            · subst hAa
              have hlogA := hlog s A A instA hA (by rw [h4]; exact hgone4)
              rw [h4] at hlogA
              exact ⟨List.mem_append_left _ hlogA.1, hnoneOf hgone4,
                fun hh => List.mem_append_left _ (hlogA.2 hh)⟩
            · have hArest : A ∈ rest := by
                cases List.mem_cons.mp hmem with
                | inl h => exact absurd h hAa
                | inr h => exact h
              cases hmid : lookupKey sd.active A with
              | some v' =>
                have hv' : v' = instA := by
                  have := hsub s aid A v' (by rw [h4]; exact hmid)
                  rw [hA] at this
                  exact (Option.some.inj this).symm
                subst hv'
                have hr2' : cascadeDependents deact fid rest sd = (some u, sc, evc) := by
                  rw [h5, hr2]
                have := ih sd u sc evc hr2' hArest hmid
                exact ⟨List.mem_append_right _ this.1, this.2.1,
                  fun hh => List.mem_append_right _ (this.2.2 hh)⟩
              | none =>
                have hlogA := hlog s aid A instA hA (by rw [h4]; exact hmid)
                rw [h4] at hlogA
                exact ⟨List.mem_append_left _ hlogA.1, hnoneOf hmid,
                  fun hh => List.mem_append_left _ (hlogA.2 hh)⟩
        · rw [if_neg h3] at hrun
          have hArest : A ∈ rest := by
            cases List.mem_cons.mp hmem with
            | inl h =>
              rw [← h] at h2
              rw [hA] at h2
              have : inst = instA := Option.some.inj h2.symm
              rw [this] at h3
              exact absurd hdep h3
            | inr h => exact h
          exact ih s u s' ev hrun hArest hA

/-- Claim C9: with `A` and `B` both active and `A` declaring `B` as a
dependency, a completed `deactivateFeature(B)` run leaves neither
active, and its trace is the cascade part — containing `A`'s removal,
and `A`'s hook invocation when declared — followed by `B`'s optional
hook invocation and finally `B`'s removal, i.e. `A` is fully deactivated
before `B`'s hook runs and before `B` is removed.  The run result does
not depend on any hook's outcome (`onDeactivate` errors are swallowed),
so a throwing deactivation hook never prevents removal. -/
theorem c9 (fuel : Nat) (s : FMState) (A B : String) (instA instB : FeatureInstance)
    (hA : lookupKey s.active A = some instA)
    (hB : lookupKey s.active B = some instB)
    (hAB : A ≠ B)
    (hdep : instA.defn.dependencies.contains B = true)
    (r : Bool) (s' : FMState) (ev : List FmEvent)
    (hrun : deactivateFeature fuel s B = (some r, s', ev)) :
    lookupKey s'.active A = none ∧ lookupKey s'.active B = none ∧
    ∃ evC hookEv, ev = evC ++ hookEv ++ [FmEvent.removed B] ∧
      FmEvent.removed A ∈ evC ∧
      (instA.defn.hasOnDeactivate = true → FmEvent.deactivateHook A ∈ evC) ∧
      (hookEv = [] ∨ hookEv = [FmEvent.deactivateHook B]) := by
  cases fuel with
  | zero =>
    have : (deactivateFeature 0 s B).1 = none := rfl
    rw [hrun] at this
    exact absurd this (by simp)
  | succ fuel =>
    unfold deactivateFeature at hrun
    simp only [hB] at hrun
    rcases h2 : cascadeDependents (deactivateFeature fuel) B (s.active.map Prod.fst) s
      with ⟨rc, s1, evC⟩
    simp only [h2] at hrun
    cases rc with
    | none =>
      simp only [Prod.mk.injEq] at hrun
      exact absurd hrun.1 (by simp)
    | some u =>
      simp only [Prod.mk.injEq] at hrun
      obtain ⟨_, hs', hev⟩ := hrun
      have hhandles := cascadeDependents_handles (deactivateFeature fuel)
        (deactivateFeature_submap fuel)
        (deactivateFeature_complete_gone fuel)
        (deactivateFeature_removed_log fuel)
        B A instA hAB hdep (s.active.map Prod.fst) s u s1 evC h2
        (mem_map_fst_of_lookupKey s.active A instA hA) hA
      obtain ⟨hremA, hgoneA, hhookA⟩ := hhandles
      refine ⟨?_, ?_, evC, (if instB.defn.hasOnDeactivate = true
        then [FmEvent.deactivateHook B] else []), ?_, hremA, hhookA, ?_⟩
      · rw [← hs']
        show lookupKey (eraseKey s1.active B) A = none
        rw [lookupKey_eraseKey_ne s1.active B A hAB]
        exact hgoneA
      · rw [← hs']
        exact lookupKey_eraseKey_self s1.active B
      · exact hev.symm
      · by_cases hf : instB.defn.hasOnDeactivate = true
        · right; simp [hf]
        · left; simp [hf]

/-- Witness for C9 at the concrete two-feature scenario: `"A"` (with a
deactivation hook) depends on `"B"`, both active; deactivating `"B"`
leaves both inactive and the trace shows `"A"` removed first. -/
theorem c9_witness :
    lookupKey (deactivateFeature 5 c9State "B").2.1.active "A" = none ∧
    lookupKey (deactivateFeature 5 c9State "B").2.1.active "B" = none ∧
    FmEvent.removed "A" ∈ (deactivateFeature 5 c9State "B").2.2 := by
  obtain ⟨h1, h2, evC, hookEv, hev, hmem, hhook, hdisj⟩ :=
    c9 5 c9State "A" "B" instDepA9 instLeafB rfl rfl (by decide) (by decide)
      true (deactivateFeature 5 c9State "B").2.1 (deactivateFeature 5 c9State "B").2.2
      rfl
  refine ⟨h1, h2, ?_⟩
  rw [hev]
  exact List.mem_append_left _ (List.mem_append_left _ hmem)

end Spec2Proof
